import Mathlib

set_option linter.unusedVariables false

/-! Shallow embedding of `src/neurokit2/rsp/rsp_findpeaks.py`.

Signals are lists of rationals (the exact idealization of the float
samples); index arrays are lists of naturals.  Fallible code (numpy
indexing errors, the `ValueError` dispatch, pandas `KeyError`) is
modelled with `Option` / `Except`. -/

/-- `np.diff`: successive differences `a[i+1] - a[i]`. -/
def npDiff (l : List ℚ) : List ℚ :=
  (l.zip l.tail).map (fun p => p.2 - p.1)

/-- Maximum value of a list (`0` for the empty list, which numpy would reject;
never reached on the program's paths). -/
def listMax : List ℚ → ℚ
  | [] => 0
  | a :: r => r.foldl max a

/-- Minimum value of a list. -/
def listMin : List ℚ → ℚ
  | [] => 0
  | a :: r => r.foldl min a

/-- `np.argmax`: index of the first occurrence of the maximum. -/
def argmaxFirst : List ℚ → ℕ
  | [] => 0
  | [_] => 0
  | a :: b :: r => if listMax (b :: r) ≤ a then 0 else argmaxFirst (b :: r) + 1

/-- `np.argmin`: index of the first occurrence of the minimum. -/
def argminFirst : List ℚ → ℕ
  | [] => 0
  | [_] => 0
  | a :: b :: r => if a ≤ listMin (b :: r) then 0 else argminFirst (b :: r) + 1

/-- `np.median`, exact over ℚ (`0` for the empty list, where numpy yields `nan`;
in the translated code that value only feeds comparisons over an empty array,
so the choice is inert). -/
def npMedian (l : List ℚ) : ℚ :=
  let s := l.insertionSort (· ≤ ·)
  if l.length = 0 then 0
  else if l.length % 2 = 1 then s.getD (l.length / 2) 0
  else (s.getD (l.length / 2 - 1) 0 + s.getD (l.length / 2) 0) / 2

/-- `np.sign` on ℚ. -/
def qsign (x : ℚ) : ℚ :=
  if x < 0 then -1 else if x = 0 then 0 else 1

/-- Worker for `npDelete`, carrying the current position. -/
def npDeleteAux {α : Type} (idcs : List ℕ) : ℕ → List α → List α
  | _, [] => []
  | i, a :: l =>
      if idcs.contains i then npDeleteAux idcs (i + 1) l
      else a :: npDeleteAux idcs (i + 1) l

/-- `np.delete`: keep the elements whose position is not listed in `idcs`. -/
def npDelete {α : Type} (l : List α) (idcs : List ℕ) : List α :=
  npDeleteAux idcs 0 l

/-- Python slice `l[1::2]`: elements at odd positions. -/
def everySecondOdd {α : Type} : List α → List α
  | [] => []
  | [_] => []
  | _ :: b :: r => b :: everySecondOdd r

/-- Python slice `l[0:-1:2]`: elements at even positions strictly before the
last position. -/
def everySecondEvenButLast {α : Type} : List α → List α
  | [] => []
  | [_] => []
  | a :: _ :: r => a :: everySecondEvenButLast r

/-! ## Extrema locator (lines 171-214) -/

/-- Rising zero crossings: `np.where(smaller[:-1] & greater[1:])[0]`. -/
def risex (s : List ℚ) : List ℕ :=
  (List.range (s.length - 1)).filter
    (fun i => decide (s.getD i 0 < 0 ∧ 0 < s.getD (i + 1) 0))

/-- Falling zero crossings: `np.where(greater[:-1] & smaller[1:])[0]`. -/
def fallx (s : List ℚ) : List ℕ :=
  (List.range (s.length - 1)).filter
    (fun i => decide (0 < s.getD i 0 ∧ s.getD (i + 1) 0 < 0))

/-- `np.sort(np.concatenate((risex, fallx)))`: the two crossing lists are
disjoint sorted sublists of `range`, so their sorted merge is the filter of
the union of the two conditions. -/
def allx (s : List ℚ) : List ℕ :=
  (List.range (s.length - 1)).filter
    (fun i => decide ((s.getD i 0 < 0 ∧ 0 < s.getD (i + 1) 0) ∨
                      (0 < s.getD i 0 ∧ s.getD (i + 1) 0 < 0)))

/-- Python slice `s[beg:end]`. -/
def windowOf (s : List ℚ) (beg e : ℕ) : List ℚ :=
  (s.drop beg).take (e - beg)

/-- Lines 171-214.  `none` models the `IndexError` raised by `risex[0]` /
`fallx[0]` when either crossing list is empty. -/
def _rsp_findpeaks_extrema (rsp_cleaned : List ℚ) : Option (List ℕ) :=
  match (risex rsp_cleaned).head?, (fallx rsp_cleaned).head? with
  | some r0, some f0 =>
      let ax := allx rsp_cleaned
      some ((List.range (ax.length - 1)).map (fun i =>
        let beg := ax.getD i 0
        let win := windowOf rsp_cleaned beg (ax.getD (i + 1) 0)
        beg + (if r0 < f0 then
                 (if (i + 1) % 2 ≠ 0 then argmaxFirst win else argminFirst win)
               else
                 (if (i + 1) % 2 ≠ 0 then argminFirst win else argmaxFirst win))))
  | _, _ => none

/-! ## Outlier filter (lines 217-237) -/

/-- Lines 222-225: `extrema[min_diff]`, the amplitude-difference retention
step.  `extrema.zip vertical_diff` mirrors numpy's index mapping: position
`i` of the difference array selects `extrema[i]`, and the final extremum has
no difference entry. -/
def amplitudeFilter (rsp_cleaned : List ℚ) (extrema : List ℕ)
    (amplitude_min : ℚ) : List ℕ :=
  let vertical_diff :=
    (npDiff (extrema.map (fun e => rsp_cleaned.getD e 0))).map (fun d => |d|)
  let median_diff := npMedian vertical_diff
  ((extrema.zip vertical_diff).filter
    (fun p => decide (median_diff * amplitude_min < p.2))).map Prod.fst

/-- Lines 231-233: the positions `removeext` deleted by the alternation
repair (`np.where(extdiffs != 0)[0] + 1`). -/
def repairRemovals (amplitudes : List ℚ) : List ℕ :=
  let extdiffs := (npDiff amplitudes).map qsign
  let sums := (extdiffs.zip extdiffs.tail).map (fun p => p.1 + p.2)
  ((sums.enum.filter (fun p => decide (p.2 ≠ 0))).map Prod.fst).map (fun i => i + 1)

/-- Lines 217-237. -/
def _rsp_findpeaks_outliers (rsp_cleaned : List ℚ) (extrema : List ℕ)
    (amplitude_min : ℚ) : List ℕ × List ℚ :=
  let extrema1 := amplitudeFilter rsp_cleaned extrema amplitude_min
  let amplitudes := extrema1.map (fun e => rsp_cleaned.getD e 0)
  let removeext := repairRemovals amplitudes
  (npDelete extrema1 removeext, npDelete amplitudes removeext)

/-! ## Sequence sanitizer (lines 240-253) -/

/-- Lines 240-253.  `none` models the `IndexError` raised by
`amplitudes[0]` / `amplitudes[1]` when fewer than two amplitudes are given;
both trim conditions read the *original* `amplitudes`, exactly as the
source does. -/
def _rsp_findpeaks_sanitize (extrema : List ℕ) (amplitudes : List ℚ) :
    Option (List ℕ × List ℕ) :=
  if 2 ≤ amplitudes.length then
    let e1 := if amplitudes.getD 1 0 < amplitudes.getD 0 0 then extrema.tail
              else extrema
    let e2 := if amplitudes.getD (amplitudes.length - 1) 0 <
                 amplitudes.getD (amplitudes.length - 2) 0
              then e1.dropLast else e1
    some (everySecondOdd e2, everySecondEvenButLast e2)
  else none

/-! ## Method pipelines (lines 109-163) -/

/-- Lines 128-136. -/
def _rsp_findpeaks_khodadad (rsp_cleaned : List ℚ) (amplitude_min : ℚ) :
    Option (List ℕ × List ℕ) :=
  match _rsp_findpeaks_extrema rsp_cleaned with
  | none => none
  | some extrema =>
      _rsp_findpeaks_sanitize
        (_rsp_findpeaks_outliers rsp_cleaned extrema amplitude_min).1
        (_rsp_findpeaks_outliers rsp_cleaned extrema amplitude_min).2

/-- Line 119: `np.where((np.diff(peaks) / sampling_rate) < 1.7)[0]`. -/
def rateOutlierIdcs (peaks : List ℕ) (sampling_rate : ℚ) : List ℕ :=
  ((npDiff (peaks.map (fun n : ℕ => (n : ℚ)))).enum.filter
    (fun p => decide (p.2 / sampling_rate < 17 / 10))).map Prod.fst

/-- Lines 109-125. -/
def _rsp_findpeaks_biosppy (rsp_cleaned : List ℚ) (sampling_rate : ℚ) :
    Option (List ℕ × List ℕ) :=
  match _rsp_findpeaks_extrema rsp_cleaned with
  | none => none
  | some extrema =>
      match _rsp_findpeaks_sanitize
          (_rsp_findpeaks_outliers rsp_cleaned extrema 0).1
          (_rsp_findpeaks_outliers rsp_cleaned extrema 0).2 with
      | none => none
      | some pt =>
          some (npDelete pt.1 (rateOutlierIdcs pt.1 sampling_rate),
                npDelete pt.2 (rateOutlierIdcs pt.1 sampling_rate))

/-- Lines 146-163; `findPeaks` stands for the external collaborator
`scipy.signal.find_peaks` (signal, distance, prominence ↦ peak indices). -/
def _rsp_findpeaks_scipy (findPeaks : List ℚ → ℚ → ℚ → List ℕ)
    (rsp_cleaned : List ℚ) (sampling_rate peak_distance peak_prominence : ℚ) :
    Option (List ℕ × List ℕ) :=
  let dist := sampling_rate * peak_distance
  let peaks := findPeaks rsp_cleaned dist peak_prominence
  let troughs := findPeaks (rsp_cleaned.map (fun x => -x)) dist peak_prominence
  let extrema := (peaks ++ troughs).insertionSort (· ≤ ·)
  let ea := _rsp_findpeaks_outliers rsp_cleaned extrema 0
  _rsp_findpeaks_sanitize ea.1 ea.2

/-- Lines 139-143; `detect` stands for the external collaborator
`detect_peaks_troughs` (signal, delta, lookahead ↦ peaks, troughs). -/
def _rsp_findpeaks_noto (detect : List ℚ → ℚ → ℕ → List ℕ × List ℕ)
    (rsp_cleaned : List ℚ) (delta : ℚ) (lookahead : ℕ) :
    Option (List ℕ × List ℕ) :=
  some (detect rsp_cleaned delta lookahead)

/-! ## Top-level wrapper (lines 8-103) -/

/-- The Python exceptions the wrapper can surface. -/
inductive PyError where
  | keyError (col : String)
  | nameError
  | valueError (msg : String)
  | indexError
  deriving DecidableEq, Repr

/-- The two admissible shapes of `rsp_cleaned`: a plain sample sequence or a
`pd.DataFrame` (a list of named columns, first match wins on lookup). -/
inductive RspInput where
  | series (s : List ℚ)
  | dataFrame (cols : List (String × List ℚ))

/-- `df[name]`: pandas column access, raising `KeyError` when absent. -/
def dataFrameGet (cols : List (String × List ℚ)) (name : String) :
    Except PyError (List ℚ) :=
  match cols.find? (fun c => c.1 = name) with
  | some c => Except.ok c.2
  | none => Except.error (PyError.keyError name)

/-- `try: ... except NameError: ...` — the handler fires only on `NameError`. -/
def tryExceptNameErr {α : Type} (body : Except PyError α)
    (handler : Unit → Except PyError α) : Except PyError α :=
  match body with
  | Except.error PyError.nameError => handler ()
  | other => other

/-- Lines 71-81: column retrieval for DataFrame input. -/
def retrieveInput (input : RspInput) : Except PyError (List ℚ) :=
  match input with
  | RspInput.series s => Except.ok s
  | RspInput.dataFrame cols =>
      tryExceptNameErr (dataFrameGet cols "RSP_Clean") (fun _ =>
        tryExceptNameErr (dataFrameGet cols "RSP_Raw") (fun _ =>
          dataFrameGet cols "RSP"))

inductive Method where
  | khodadad
  | biosppy
  | noto
  | scipy
  deriving DecidableEq, Repr

/-- The `ValueError` message of lines 99-101. -/
def methodErrorMsg : String :=
  "NeuroKit error: rsp_findpeaks(): 'method' should be one of 'khodadad2018', 'scipy' or 'biosppy'."

/-- Python `str.lower()` (character-wise lowercasing). -/
def strLower (s : String) : String :=
  String.mk (s.data.map Char.toLower)

/-- Lines 84-101: dispatch on `method.lower()`. -/
def parseMethod (method : String) : Except PyError Method :=
  let m := strLower method
  if m = "khodadad" ∨ m = "khodadad2018" then Except.ok Method.khodadad
  else if m = "biosppy" then Except.ok Method.biosppy
  else if m = "noto" ∨ m = "noto2018" then Except.ok Method.noto
  else if m = "scipy" then Except.ok Method.scipy
  else Except.error (PyError.valueError methodErrorMsg)

/-- A failing inner pipeline surfaces its numpy `IndexError`. -/
def liftPipeline (r : Option (List ℕ × List ℕ)) :
    Except PyError (List ℕ × List ℕ) :=
  match r with
  | some pt => Except.ok pt
  | none => Except.error PyError.indexError

/-- Lines 8-103.  The two delegating variants' external collaborators are
passed in as `detect` (noto) and `findPeaks` (scipy). -/
def rsp_findpeaks (detect : List ℚ → ℚ → ℕ → List ℕ × List ℕ)
    (findPeaks : List ℚ → ℚ → ℚ → List ℕ) (input : RspInput)
    (sampling_rate : ℚ) (method : String) (amplitude_min : ℚ)
    (peak_distance : ℚ) (peak_prominence : ℚ) (delta : ℚ) (lookahead : ℕ) :
    Except PyError (List ℕ × List ℕ) :=
  match retrieveInput input with
  | Except.error e => Except.error e
  | Except.ok cleaned =>
      match parseMethod method with
      | Except.error e => Except.error e
      | Except.ok Method.khodadad =>
          liftPipeline (_rsp_findpeaks_khodadad cleaned amplitude_min)
      | Except.ok Method.biosppy =>
          liftPipeline (_rsp_findpeaks_biosppy cleaned sampling_rate)
      | Except.ok Method.noto =>
          liftPipeline (_rsp_findpeaks_noto detect cleaned delta lookahead)
      | Except.ok Method.scipy =>
          liftPipeline (_rsp_findpeaks_scipy findPeaks cleaned sampling_rate
            peak_distance peak_prominence)

/-! ## Spec-side definitions

These do not translate source lines; they render sentences of the
specification, to be compared with the translated code. -/

/-- Modelled from the spec, section 9: the per-window search target as an
explicit two-state enumeration. -/
inductive Expect where
  | searchMax
  | searchMin
  deriving DecidableEq, Repr

def toggleExpect : Expect → Expect
  | Expect.searchMax => Expect.searchMin
  | Expect.searchMin => Expect.searchMax

/-- Modelled from the spec, section 4.1 steps 4-5: walk consecutive crossing
pairs, searching each window for the expected extreme and toggling the
expectation, recording window start + offset of the extreme. -/
def locateSpec (s : List ℚ) : Expect → List ℕ → List ℕ
  | _, [] => []
  | _, [_] => []
  | ex, b :: c :: rest =>
      (b + (match ex with
            | Expect.searchMax => argmaxFirst (windowOf s b c)
            | Expect.searchMin => argminFirst (windowOf s b c))) ::
        locateSpec s (toggleExpect ex) (c :: rest)

/-- Modelled from the spec, section 4.1: the extrema locator as the state
machine seeded by the starting phase (first window searches a maximum iff
the first rising crossing precedes the first falling one). -/
def extremaSpec (s : List ℚ) : Option (List ℕ) :=
  match (risex s).head?, (fallx s).head? with
  | some r0, some f0 =>
      some (locateSpec s (if r0 < f0 then Expect.searchMax else Expect.searchMin)
        (allx s))
  | _, _ => none

/-- Modelled from the amended reading of the spec's `amplitude_min = 0`
contract: an extremum other than the last is retained iff its amplitude
differs from its successor's; the last extremum is always dropped. -/
def amplitudeFilterSpec0 (rsp_cleaned : List ℚ) (extrema : List ℕ) : List ℕ :=
  ((List.range (extrema.length - 1)).filter (fun i =>
      decide (rsp_cleaned.getD (extrema.getD i 0) 0 ≠
              rsp_cleaned.getD (extrema.getD (i + 1) 0) 0))).map
    (fun i => extrema.getD i 0)

/-- The output invariant of the spec (sections 3 and 8): the troughs
`t0 < t1 < …` and peaks `p0 < p1 < …` interleave as
`t0 < p0 < t1 < p1 < … < p(k-1)`, i.e. the merge by original index order
strictly alternates trough/peak, beginning with a trough and ending with a
peak whenever the sequences are nonempty. -/
def altTroughPeak : List ℕ → List ℕ → Bool
  | [], [] => true
  | [t], [p] => decide (t < p)
  | t :: t' :: ts, p :: ps => decide (t < p) && decide (p < t') && altTroughPeak (t' :: ts) ps
  | _, _ => false

/-- Strict up/down (for `true`) or down/up (for `false`) amplitude
alternation, the spec's "already-sanitized / strictly alternating" shape. -/
def altFrom : Bool → List ℚ → Bool
  | _, [] => true
  | _, [_] => true
  | up, a :: b :: r =>
      (if up then decide (a < b) else decide (b < a)) && altFrom (!up) (b :: r)

/-- The method names the dispatch accepts (after lowercasing). -/
def validMethodNames : List String :=
  ["khodadad", "khodadad2018", "biosppy", "noto", "noto2018", "scipy"]

/-! ## Helper lemmas -/

theorem zip_map_fst_sublist {α β : Type} (l : List α) (v : List β) :
    ((l.zip v).map Prod.fst).Sublist l := by
  induction l generalizing v with
  | nil => simp
  | cons a l ih =>
      cases v with
      | nil => simp
      | cons b v =>
          simp only [List.zip_cons_cons, List.map_cons]
          exact List.Sublist.cons₂ a (ih v)

theorem zip_map_fst_take {α β : Type} (l : List α) (v : List β) :
    (l.zip v).map Prod.fst = l.take v.length := by
  induction l generalizing v with
  | nil => simp
  | cons a l ih =>
      cases v with
      | nil => simp
      | cons b v => simp [ih]

theorem npDeleteAux_sublist {α : Type} (idcs : List ℕ) :
    ∀ (i : ℕ) (l : List α), (npDeleteAux idcs i l).Sublist l
  | _, [] => by simp [npDeleteAux]
  | i, a :: l => by
      simp only [npDeleteAux]
      split
      · exact (npDeleteAux_sublist idcs (i + 1) l).cons a
      · exact (npDeleteAux_sublist idcs (i + 1) l).cons₂ a

theorem npDelete_sublist {α : Type} (l : List α) (idcs : List ℕ) :
    (npDelete l idcs).Sublist l :=
  npDeleteAux_sublist idcs 0 l

theorem npDeleteAux_nil {α : Type} : ∀ (i : ℕ) (l : List α),
    npDeleteAux [] i l = l
  | _, [] => rfl
  | i, a :: l => by simp [npDeleteAux, npDeleteAux_nil (i + 1) l]

theorem npDeleteAux_length_eq {α β : Type} (idcs : List ℕ) :
    ∀ (i : ℕ) (l₁ : List α) (l₂ : List β), l₁.length = l₂.length →
      (npDeleteAux idcs i l₁).length = (npDeleteAux idcs i l₂).length
  | _, [], [], _ => rfl
  | _, [], _ :: _, h => by simp at h
  | _, _ :: _, [], h => by simp at h
  | i, a :: l₁, b :: l₂, h => by
      have h' : l₁.length = l₂.length := by simpa using h
      simp only [npDeleteAux]
      split
      · exact npDeleteAux_length_eq idcs (i + 1) l₁ l₂ h'
      · simpa using npDeleteAux_length_eq idcs (i + 1) l₁ l₂ h'

theorem everySecondOdd_sublist {α : Type} : ∀ l : List α,
    (everySecondOdd l).Sublist l
  | [] => by simp [everySecondOdd]
  | [a] => by simp [everySecondOdd]
  | a :: b :: r => by
      simp only [everySecondOdd]
      exact ((everySecondOdd_sublist r).cons₂ b).cons a

theorem everySecondEvenButLast_sublist {α : Type} : ∀ l : List α,
    (everySecondEvenButLast l).Sublist l
  | [] => by simp [everySecondEvenButLast]
  | [a] => by simp [everySecondEvenButLast]
  | a :: b :: r => by
      simp only [everySecondEvenButLast]
      exact ((everySecondEvenButLast_sublist r).cons b).cons₂ a

theorem split_length_eq {α : Type} : ∀ l : List α,
    (everySecondOdd l).length = (everySecondEvenButLast l).length
  | [] => rfl
  | [_] => rfl
  | _ :: _ :: r => by
      simp [everySecondOdd, everySecondEvenButLast, split_length_eq r]

theorem alt_split : ∀ e : List ℕ, e.Chain' (· < ·) →
    altTroughPeak (everySecondEvenButLast e) (everySecondOdd e) = true
  | [], _ => rfl
  | [_], _ => rfl
  | a :: b :: r, h => by
      have hab : a < b := (List.chain'_cons.mp h).1
      have hbr : (b :: r).Chain' (· < ·) := (List.chain'_cons.mp h).2
      match r with
      | [] => simp [everySecondOdd, everySecondEvenButLast, altTroughPeak, hab]
      | [c] => simp [everySecondOdd, everySecondEvenButLast, altTroughPeak, hab]
      | c :: d :: r' =>
          have hbc : b < c := (List.chain'_cons.mp hbr).1
          have hr : (c :: d :: r').Chain' (· < ·) := (List.chain'_cons.mp hbr).2
          have ih := alt_split (c :: d :: r') hr
          simp only [everySecondOdd, everySecondEvenButLast, altTroughPeak] at ih ⊢
          simp [hab, hbc, ih]

theorem argmaxFirst_lt_length : ∀ l : List ℚ, l ≠ [] → argmaxFirst l < l.length
  | [_], _ => by simp [argmaxFirst]
  | a :: b :: r, _ => by
      simp only [argmaxFirst]
      split
      · simp
      · have := argmaxFirst_lt_length (b :: r) (by simp)
        simp only [List.length_cons] at this ⊢
        omega

theorem argminFirst_lt_length : ∀ l : List ℚ, l ≠ [] → argminFirst l < l.length
  | [_], _ => by simp [argminFirst]
  | a :: b :: r, _ => by
      simp only [argminFirst]
      split
      · simp
      · have := argminFirst_lt_length (b :: r) (by simp)
        simp only [List.length_cons] at this ⊢
        omega

theorem pairwise_getD_lt (l : List ℕ) (h : l.Pairwise (· < ·)) {i j : ℕ}
    (hij : i < j) (hj : j < l.length) : l.getD i 0 < l.getD j 0 := by
  have hi : i < l.length := lt_trans hij hj
  rw [List.getD_eq_getElem l 0 hi, List.getD_eq_getElem l 0 hj]
  exact List.pairwise_iff_get.mp h ⟨i, hi⟩ ⟨j, hj⟩ hij

theorem allx_pairwise (s : List ℚ) : (allx s).Pairwise (· < ·) :=
  List.Pairwise.sublist (List.filter_sublist _) (List.pairwise_lt_range _)

theorem allx_mem_lt (s : List ℚ) {x : ℕ} (hx : x ∈ allx s) : x < s.length - 1 := by
  have := List.mem_filter.mp hx
  exact List.mem_range.mp this.1

theorem windowOf_length (s : List ℚ) {beg e : ℕ} (hbe : beg < e)
    (he : e ≤ s.length) : (windowOf s beg e).length = e - beg := by
  simp only [windowOf, List.length_take, List.length_drop]
  omega

theorem windowOf_ne_nil (s : List ℚ) {beg e : ℕ} (hbe : beg < e)
    (he : e ≤ s.length) : windowOf s beg e ≠ [] := by
  have := windowOf_length s hbe he
  intro hnil
  rw [hnil] at this
  simp at this
  omega

theorem mapWindows_chain (s : List ℚ) (pick : ℕ → List ℚ → ℕ)
    (hpick : ∀ i win, win ≠ [] → pick i win < win.length) :
    ((List.range ((allx s).length - 1)).map (fun i =>
       (allx s).getD i 0 +
         pick i (windowOf s ((allx s).getD i 0) ((allx s).getD (i + 1) 0)))).Chain'
      (· < ·) := by
  rcases hK : (allx s).length - 1 with _ | n
  · simp
  · rw [List.chain'_map]
    refine (List.chain'_range_succ _ n).mpr ?_
    intro m hm
    have hm2 : m + 2 ≤ (allx s).length := by omega
    have hbe : (allx s).getD m 0 < (allx s).getD (m + 1) 0 :=
      pairwise_getD_lt _ (allx_pairwise s) (Nat.lt_succ_self m) (by omega)
    have hbe' : (allx s).getD (m + 1) 0 < (allx s).getD (m + 2) 0 :=
      pairwise_getD_lt _ (allx_pairwise s) (Nat.lt_succ_self (m + 1)) (by omega)
    have hmem : (allx s).getD (m + 1) 0 ∈ allx s := by
      rw [List.getD_eq_getElem (allx s) 0 (by omega : m + 1 < (allx s).length)]
      exact List.getElem_mem _
    have hle : (allx s).getD (m + 1) 0 ≤ s.length := by
      have := allx_mem_lt s hmem
      omega
    have hwin := windowOf_length s hbe hle
    have hnn := windowOf_ne_nil s hbe hle
    have hlt := hpick m _ hnn
    rw [hwin] at hlt
    have : (allx s).getD m 0 +
        pick m (windowOf s ((allx s).getD m 0) ((allx s).getD (m + 1) 0)) <
        (allx s).getD (m + 1) 0 := by omega
    exact lt_of_lt_of_le this (Nat.le_add_right _ _)

theorem extrema_chain {s : List ℚ} {ext : List ℕ}
    (h : _rsp_findpeaks_extrema s = some ext) : ext.Chain' (· < ·) := by
  unfold _rsp_findpeaks_extrema at h
  rcases hr : (risex s).head? with _ | r0 <;> rw [hr] at h
  · simp at h
  rcases hf : (fallx s).head? with _ | f0 <;> rw [hf] at h
  · simp at h
  simp only [Option.some.injEq] at h
  subst h
  refine mapWindows_chain s
    (fun i win =>
      if r0 < f0 then
        (if (i + 1) % 2 ≠ 0 then argmaxFirst win else argminFirst win)
      else
        (if (i + 1) % 2 ≠ 0 then argminFirst win else argmaxFirst win))
    ?_
  intro i win hw
  split
  · dsimp only
    split
    · exact argmaxFirst_lt_length win hw
    · exact argminFirst_lt_length win hw
  · dsimp only
    split
    · exact argminFirst_lt_length win hw
    · exact argmaxFirst_lt_length win hw

theorem amplitudeFilter_sublist (rsp_cleaned : List ℚ) (extrema : List ℕ)
    (amplitude_min : ℚ) :
    (amplitudeFilter rsp_cleaned extrema amplitude_min).Sublist extrema := by
  unfold amplitudeFilter
  exact (List.Sublist.map Prod.fst (List.filter_sublist _)).trans
    (zip_map_fst_sublist _ _)

theorem outliers_fst_sublist (rsp_cleaned : List ℚ) (extrema : List ℕ)
    (amplitude_min : ℚ) :
    (_rsp_findpeaks_outliers rsp_cleaned extrema amplitude_min).1.Sublist extrema := by
  unfold _rsp_findpeaks_outliers
  exact (npDelete_sublist _ _).trans (amplitudeFilter_sublist _ _ _)

theorem outliers_snd_length (rsp_cleaned : List ℚ) (extrema : List ℕ)
    (amplitude_min : ℚ) :
    (_rsp_findpeaks_outliers rsp_cleaned extrema amplitude_min).2.length =
      (_rsp_findpeaks_outliers rsp_cleaned extrema amplitude_min).1.length := by
  unfold _rsp_findpeaks_outliers
  exact npDeleteAux_length_eq _ 0 _ _ (by simp)

theorem sanitize_parts {extrema : List ℕ} {amplitudes : List ℚ}
    {p t : List ℕ} (h : _rsp_findpeaks_sanitize extrema amplitudes = some (p, t)) :
    ∃ e2 : List ℕ, e2.Sublist extrema ∧ p = everySecondOdd e2 ∧
      t = everySecondEvenButLast e2 := by
  unfold _rsp_findpeaks_sanitize at h
  split at h
  · set e1 := if amplitudes.getD 1 0 < amplitudes.getD 0 0 then extrema.tail
              else extrema with he1
    set e2 := if amplitudes.getD (amplitudes.length - 1) 0 <
                 amplitudes.getD (amplitudes.length - 2) 0
              then e1.dropLast else e1 with he2
    refine ⟨e2, ?_, ?_, ?_⟩
    · have h1 : e1.Sublist extrema := by
        rw [he1]; split
        · exact List.tail_sublist extrema
        · exact List.Sublist.refl extrema
      rw [he2]; split
      · exact (List.dropLast_sublist e1).trans h1
      · exact h1
    · exact (Prod.mk.injEq _ _ _ _ ▸ (Option.some.injEq _ _ ▸ h)).1.symm
    · exact (Prod.mk.injEq _ _ _ _ ▸ (Option.some.injEq _ _ ▸ h)).2.symm
  · exact absurd h (by simp)

theorem khodadad_parts {s : List ℚ} {amplitude_min : ℚ} {p t : List ℕ}
    (h : _rsp_findpeaks_khodadad s amplitude_min = some (p, t)) :
    ∃ e2 : List ℕ, e2.Chain' (· < ·) ∧ p = everySecondOdd e2 ∧
      t = everySecondEvenButLast e2 := by
  unfold _rsp_findpeaks_khodadad at h
  rcases hx : _rsp_findpeaks_extrema s with _ | ext <;> rw [hx] at h
  · simp at h
  obtain ⟨e2, hsub, hp, ht⟩ := sanitize_parts h
  refine ⟨e2, ?_, hp, ht⟩
  exact List.Chain'.sublist (extrema_chain hx)
    (hsub.trans (outliers_fst_sublist _ _ _))

theorem biosppy_as_khodadad (s : List ℚ) (sr : ℚ) :
    _rsp_findpeaks_biosppy s sr =
      match _rsp_findpeaks_khodadad s 0 with
      | none => none
      | some pt => some (npDelete pt.1 (rateOutlierIdcs pt.1 sr),
                         npDelete pt.2 (rateOutlierIdcs pt.1 sr)) := by
  unfold _rsp_findpeaks_biosppy _rsp_findpeaks_khodadad
  cases _rsp_findpeaks_extrema s with
  | none => rfl
  | some ext =>
      cases _rsp_findpeaks_sanitize (_rsp_findpeaks_outliers s ext 0).1
        (_rsp_findpeaks_outliers s ext 0).2 with
      | none => rfl
      | some pt => rfl

theorem khodadad_length {s : List ℚ} {amplitude_min : ℚ} {p t : List ℕ}
    (h : _rsp_findpeaks_khodadad s amplitude_min = some (p, t)) :
    p.length = t.length := by
  obtain ⟨e2, _, hp, ht⟩ := khodadad_parts h
  rw [hp, ht]
  exact split_length_eq e2

theorem biosppy_length {s : List ℚ} {sr : ℚ} {p t : List ℕ}
    (h : _rsp_findpeaks_biosppy s sr = some (p, t)) : p.length = t.length := by
  rw [biosppy_as_khodadad] at h
  rcases hk : _rsp_findpeaks_khodadad s 0 with _ | pt <;> rw [hk] at h
  · simp at h
  · simp only [Option.some.injEq, Prod.mk.injEq] at h
    obtain ⟨hp, ht⟩ := h
    rw [← hp, ← ht]
    unfold npDelete
    exact npDeleteAux_length_eq _ 0 _ _ (khodadad_length hk)

theorem liftPipeline_ok {r : Option (List ℕ × List ℕ)} {pt : List ℕ × List ℕ}
    (h : liftPipeline r = Except.ok pt) : r = some pt := by
  cases r with
  | none => simp [liftPipeline] at h
  | some q => simpa [liftPipeline] using h

/-- C1 (counterexample): the khodadad2018 pipeline can succeed with empty
peak and trough sequences, whose merge does not start with a trough nor end
with a peak. -/
theorem C1_counterexample :
    _rsp_findpeaks_khodadad [-1, 2, 3, -5, -4, 6, -7] 0 = some ([], []) ∧
    ¬ (([] : List ℕ) ≠ [] ∧ altTroughPeak [] [] = true) := by
  constructor
  · norm_num [_rsp_findpeaks_khodadad, _rsp_findpeaks_extrema, risex, fallx, allx,
      windowOf, argmaxFirst, argminFirst, listMax, listMin, _rsp_findpeaks_outliers,
      amplitudeFilter, npDiff, npMedian, qsign, repairRemovals, npDelete, npDeleteAux,
      _rsp_findpeaks_sanitize, everySecondOdd, everySecondEvenButLast,
      List.range_succ, List.enum, List.enumFrom, List.insertionSort, List.orderedInsert]
  · simp

/-- C1 (amended): for every valid output of the khodadad2018 pipeline the
peaks and troughs interleave strictly by index as trough, peak, trough,
peak, …; in particular, whenever the output is nonempty the merged sequence
starts with a trough and ends with a peak. -/
theorem C1_theorem : ∀ (s : List ℚ) (amplitude_min : ℚ) (p t : List ℕ),
    _rsp_findpeaks_khodadad s amplitude_min = some (p, t) →
    altTroughPeak t p = true := by
  intro s amin p t h
  obtain ⟨e2, hc, hp, ht⟩ := khodadad_parts h
  rw [hp, ht]
  exact alt_split e2 hc

/-- C1 (witness): the amended theorem applied to a concrete signal. -/
theorem C1_witness : altTroughPeak [0] [1] = true :=
  C1_theorem [-1, 2, -2, 1, -1] 0 [1] [0] (by
    norm_num [_rsp_findpeaks_khodadad, _rsp_findpeaks_extrema, risex, fallx, allx,
      windowOf, argmaxFirst, argminFirst, listMax, listMin, _rsp_findpeaks_outliers,
      amplitudeFilter, npDiff, npMedian, qsign, repairRemovals, npDelete, npDeleteAux,
      _rsp_findpeaks_sanitize, everySecondOdd, everySecondEvenButLast,
      List.range_succ, List.enum, List.enumFrom, List.insertionSort, List.orderedInsert])

/-- C2: every valid output of `rsp_findpeaks` under the khodadad2018 (or its
"khodadad" alias) or biosppy method has equally many peaks and troughs. -/
theorem C2_theorem : ∀ (detect : List ℚ → ℚ → ℕ → List ℕ × List ℕ)
    (findPeaks : List ℚ → ℚ → ℚ → List ℕ) (input : RspInput)
    (sampling_rate : ℚ) (method : String)
    (amplitude_min peak_distance peak_prominence delta : ℚ) (lookahead : ℕ)
    (p t : List ℕ),
    (strLower method = "khodadad" ∨ strLower method = "khodadad2018" ∨
      strLower method = "biosppy") →
    rsp_findpeaks detect findPeaks input sampling_rate method amplitude_min
      peak_distance peak_prominence delta lookahead = Except.ok (p, t) →
    p.length = t.length := by
  intro detect findPeaks input sr m amin pd pp dl la p t hm h
  unfold rsp_findpeaks at h
  rcases hr : retrieveInput input with e | cleaned <;> rw [hr] at h
  · simp at h
  rcases hm with h1 | h1 | h1 <;>
    simp only [parseMethod, h1, if_true, if_false, reduceIte] at h
  · exact khodadad_length (liftPipeline_ok (by simpa using h))
  · exact khodadad_length (liftPipeline_ok (by simpa using h))
  · exact biosppy_length (liftPipeline_ok (by simpa using h))

/-- C2 (witness): equal counts on a concrete khodadad2018 run and a concrete
biosppy run through the wrapper. -/
theorem C2_witness :
    ([1] : List ℕ).length = ([0] : List ℕ).length :=
  C2_theorem (fun _ _ _ => ([], [])) (fun _ _ _ => [])
    (RspInput.series [-1, 2, -2, 1, -1]) 1000 "Khodadad2018" 0 (8/10) (1/2) 0 200
    [1] [0] (Or.inr (Or.inl (by decide))) (by
      have hpm : parseMethod "Khodadad2018" = Except.ok Method.khodadad := by rfl
      norm_num [rsp_findpeaks, retrieveInput, hpm, liftPipeline,
        _rsp_findpeaks_khodadad, _rsp_findpeaks_extrema, risex, fallx, allx,
        windowOf, argmaxFirst, argminFirst, listMax, listMin, _rsp_findpeaks_outliers,
        amplitudeFilter, npDiff, npMedian, qsign, repairRemovals, npDelete, npDeleteAux,
        _rsp_findpeaks_sanitize, everySecondOdd, everySecondEvenButLast,
        List.range_succ, List.enum, List.enumFrom, List.insertionSort, List.orderedInsert])

/-- C6: a signal with no rising zero crossing or no falling zero crossing
makes the extrema locator fail, and both the khodadad2018 and biosppy
pipelines fail with it, producing no partial output. -/
theorem C6_theorem : ∀ (s : List ℚ) (amplitude_min sampling_rate : ℚ),
    risex s = [] ∨ fallx s = [] →
    _rsp_findpeaks_extrema s = none ∧
    _rsp_findpeaks_khodadad s amplitude_min = none ∧
    _rsp_findpeaks_biosppy s sampling_rate = none := by
  intro s amin sr h
  have hx : _rsp_findpeaks_extrema s = none := by
    unfold _rsp_findpeaks_extrema
    rcases h with h | h
    · rw [h]
      rfl
    · rw [h]
      cases (risex s).head? <;> rfl
  refine ⟨hx, ?_, ?_⟩
  · unfold _rsp_findpeaks_khodadad
    rw [hx]
  · unfold _rsp_findpeaks_biosppy
    rw [hx]

/-- C6 (witness): a monotonic all-positive ramp crosses zero in neither
direction and every stage reports failure. -/
theorem C6_witness :
    _rsp_findpeaks_extrema [1, 2, 3] = none ∧
    _rsp_findpeaks_khodadad [1, 2, 3] (3/10) = none ∧
    _rsp_findpeaks_biosppy [1, 2, 3] 1000 = none :=
  C6_theorem [1, 2, 3] (3/10) 1000 (Or.inl (by
    norm_num [risex, List.range_succ]))

/-- C8: whenever fewer than two extrema survive the outlier filter and
alternation repair, the sanitizer fails (models the `IndexError` of
`amplitudes[0]` / `amplitudes[1]`) instead of returning empty sequences. -/
theorem C8_theorem : ∀ (rsp_cleaned : List ℚ) (extrema : List ℕ)
    (amplitude_min : ℚ),
    (_rsp_findpeaks_outliers rsp_cleaned extrema amplitude_min).1.length < 2 →
    _rsp_findpeaks_sanitize
      (_rsp_findpeaks_outliers rsp_cleaned extrema amplitude_min).1
      (_rsp_findpeaks_outliers rsp_cleaned extrema amplitude_min).2 = none := by
  intro rsp e amin h
  have hlen := outliers_snd_length rsp e amin
  have hlt : ¬ 2 ≤ (_rsp_findpeaks_outliers rsp e amin).2.length := by omega
  simp [_rsp_findpeaks_sanitize, hlt]

/-- C8 (witness): a single extremum is filtered to nothing and the
sanitizer errors on it. -/
theorem C8_witness :
    (_rsp_findpeaks_outliers [5, 3] [0] 1).1.length < 2 ∧
    _rsp_findpeaks_sanitize (_rsp_findpeaks_outliers [5, 3] [0] 1).1
      (_rsp_findpeaks_outliers [5, 3] [0] 1).2 = none := by
  have h : (_rsp_findpeaks_outliers [5, 3] [0] 1).1.length < 2 := by
    norm_num [_rsp_findpeaks_outliers, amplitudeFilter, npDiff, npMedian, qsign,
      repairRemovals, npDelete, npDeleteAux, List.enum, List.enumFrom,
      List.insertionSort, List.orderedInsert]
  exact ⟨h, C8_theorem [5, 3] [0] 1 h⟩

/-- C10: a DataFrame input without an "RSP_Clean" column raises the
underlying `KeyError` instead of falling back to "RSP_Raw" or "RSP",
because the fallback handlers catch only `NameError`. -/
theorem C10_theorem : ∀ cols : List (String × List ℚ),
    cols.find? (fun c => c.1 = "RSP_Clean") = none →
    retrieveInput (RspInput.dataFrame cols) =
      Except.error (PyError.keyError "RSP_Clean") := by
  intro cols h
  simp only [retrieveInput, tryExceptNameErr, dataFrameGet, h]

/-- C10 (witness): both fallback columns are present, yet the lookup still
fails with the `KeyError` for "RSP_Clean". -/
theorem C10_witness :
    retrieveInput (RspInput.dataFrame [("RSP_Raw", [1]), ("RSP", [2])]) =
      Except.error (PyError.keyError "RSP_Clean") :=
  C10_theorem [("RSP_Raw", [1]), ("RSP", [2])] (by decide)

theorem npDiff_cons_cons (a b : ℚ) (l : List ℚ) :
    npDiff (a :: b :: l) = (b - a) :: npDiff (b :: l) := rfl

/-- C3 (counterexample): with `amplitude_min = 0` the amplitude-difference
retention step still removes the last extremum, so the extrema sequence does
not pass unchanged even though all adjacent amplitude differences are
positive. -/
theorem C3_counterexample :
    amplitudeFilter [1, 2] [0, 1] 0 = [0] ∧ ([0] : List ℕ) ≠ [0, 1] := by
  constructor
  · norm_num [amplitudeFilter, npDiff, npMedian, List.insertionSort,
      List.orderedInsert]
  · simp

theorem ampFilter0_cons_cons (rsp_cleaned : List ℚ) (e1 e2 : ℕ) (r : List ℕ) :
    amplitudeFilter rsp_cleaned (e1 :: e2 :: r) 0 =
      (if rsp_cleaned.getD e1 0 ≠ rsp_cleaned.getD e2 0 then [e1] else []) ++
        amplitudeFilter rsp_cleaned (e2 :: r) 0 := by
  by_cases h : rsp_cleaned.getD e1 0 = rsp_cleaned.getD e2 0
  · simp only [List.getD_eq_getElem?_getD] at h
    simp [amplitudeFilter, mul_zero, npDiff_cons_cons, List.filter_cons, h,
      sub_self]
  · have h' : rsp_cleaned.getD e2 0 ≠ rsp_cleaned.getD e1 0 := fun hh => h hh.symm
    simp only [List.getD_eq_getElem?_getD] at h h'
    simp [amplitudeFilter, mul_zero, npDiff_cons_cons, List.filter_cons, h, h',
      abs_pos, sub_ne_zero]

theorem spec0_cons_cons (rsp_cleaned : List ℚ) (e1 e2 : ℕ) (r : List ℕ) :
    amplitudeFilterSpec0 rsp_cleaned (e1 :: e2 :: r) =
      (if rsp_cleaned.getD e1 0 ≠ rsp_cleaned.getD e2 0 then [e1] else []) ++
        amplitudeFilterSpec0 rsp_cleaned (e2 :: r) := by
  simp only [amplitudeFilterSpec0, List.length_cons, Nat.add_sub_cancel]
  rw [List.range_succ_eq_map, List.filter_cons, List.filter_map]
  by_cases h : rsp_cleaned.getD e1 0 = rsp_cleaned.getD e2 0
  · simp only [List.getD_eq_getElem?_getD] at h
    simp [h, List.map_map, Function.comp_def, Nat.succ_eq_add_one,
      List.getElem?_cons_succ]
  · have h' : rsp_cleaned.getD e2 0 ≠ rsp_cleaned.getD e1 0 := fun hh => h hh.symm
    simp only [List.getD_eq_getElem?_getD] at h h'
    simp [h, h', List.map_map, Function.comp_def, Nat.succ_eq_add_one,
      List.getElem?_cons_succ]

/-- C3 (amended): with `amplitude_min = 0` the amplitude step keeps exactly
those extrema, other than the last, whose amplitude differs from their
successor's; the last extremum is always dropped by the index mapping. -/
theorem C3_theorem : ∀ (rsp_cleaned : List ℚ) (extrema : List ℕ),
    amplitudeFilter rsp_cleaned extrema 0 =
      amplitudeFilterSpec0 rsp_cleaned extrema := by
  intro rsp extrema
  induction extrema with
  | nil => simp [amplitudeFilter, amplitudeFilterSpec0, npDiff]
  | cons e1 rest ih0 =>
      cases rest with
      | nil => simp [amplitudeFilter, amplitudeFilterSpec0, npDiff]
      | cons e2 r => rw [ampFilter0_cons_cons, spec0_cons_cons, ih0]

theorem toggleExpect_toggleExpect (ex : Expect) :
    toggleExpect (toggleExpect ex) = ex := by
  cases ex <;> rfl

theorem locateSpec_cons_cons (s : List ℚ) (ex : Expect) (b c : ℕ)
    (rest : List ℕ) :
    locateSpec s ex (b :: c :: rest) =
      (b + (match ex with
            | Expect.searchMax => argmaxFirst (windowOf s b c)
            | Expect.searchMin => argminFirst (windowOf s b c))) ::
        locateSpec s (toggleExpect ex) (c :: rest) := rfl

theorem locateSpec_eq_map (s : List ℚ) : ∀ (ax : List ℕ) (ex : Expect),
    locateSpec s ex ax =
      (List.range (ax.length - 1)).map (fun i =>
        ax.getD i 0 +
          (match (if i % 2 = 0 then ex else toggleExpect ex) with
           | Expect.searchMax =>
               argmaxFirst (windowOf s (ax.getD i 0) (ax.getD (i + 1) 0))
           | Expect.searchMin =>
               argminFirst (windowOf s (ax.getD i 0) (ax.getD (i + 1) 0))))
  | [], ex => by simp [locateSpec]
  | [b], ex => by simp [locateSpec]
  | b :: c :: rest, ex => by
      rw [locateSpec_cons_cons, locateSpec_eq_map s (c :: rest) (toggleExpect ex)]
      simp only [List.length_cons, Nat.add_sub_cancel, List.range_succ_eq_map,
        List.map_cons, List.map_map]
      refine List.cons_eq_cons.mpr ⟨by simp, ?_⟩
      refine List.map_congr_left ?_
      intro i _
      simp only [Function.comp_def, Nat.succ_eq_add_one, List.getD_cons_succ]
      by_cases hi : i % 2 = 0
      · have hi1 : (i + 1) % 2 ≠ 0 := by omega
        simp [hi, hi1]
      · have hi1 : (i + 1) % 2 = 0 := by omega
        simp [hi, hi1, toggleExpect_toggleExpect]

/-- C5: the extrema locator equals the spec's explicit two-state machine:
windows between consecutive crossings are searched alternately for a
maximum / minimum, seeded by whether the first rising crossing precedes the
first falling one, and each extremum is the window start plus the offset of
the extreme within the window. -/
theorem C5_theorem : ∀ s : List ℚ, _rsp_findpeaks_extrema s = extremaSpec s := by
  intro s
  unfold _rsp_findpeaks_extrema extremaSpec
  cases hr : (risex s).head? with
  | none => rfl
  | some r0 =>
      cases hf : (fallx s).head? with
      | none => rfl
      | some f0 =>
          dsimp only
          rw [locateSpec_eq_map]
          refine congrArg some (List.map_congr_left ?_)
          intro i _
          by_cases hrf : r0 < f0 <;> by_cases hi : i % 2 = 0
          · have hi1 : (i + 1) % 2 ≠ 0 := by omega
            simp [hrf, hi, hi1]
          · have hi1 : (i + 1) % 2 = 0 := by omega
            simp [hrf, hi, hi1, toggleExpect]
          · have hi1 : (i + 1) % 2 ≠ 0 := by omega
            simp [hrf, hi, hi1]
          · have hi1 : (i + 1) % 2 = 0 := by omega
            simp [hrf, hi, hi1, toggleExpect]

/-- C9: method dispatch is case-insensitive (it depends only on the
lowercased name); any name whose lowercase form is not an accepted method
makes `rsp_findpeaks` fail with the configuration `ValueError`, regardless
of the signal and of every other parameter; and the error message names the
documented valid choices, each of which the dispatch accepts. -/
theorem C9_theorem :
    (∀ m₁ m₂ : String, strLower m₁ = strLower m₂ →
      parseMethod m₁ = parseMethod m₂) ∧
    (∀ method : String, strLower method ∉ validMethodNames →
      ∀ (detect : List ℚ → ℚ → ℕ → List ℕ × List ℕ)
        (findPeaks : List ℚ → ℚ → ℚ → List ℕ) (s : List ℚ)
        (sampling_rate amplitude_min peak_distance peak_prominence delta : ℚ)
        (lookahead : ℕ),
        rsp_findpeaks detect findPeaks (RspInput.series s) sampling_rate method
          amplitude_min peak_distance peak_prominence delta lookahead =
          Except.error (PyError.valueError methodErrorMsg)) ∧
    (∀ c ∈ ["khodadad2018", "scipy", "biosppy"],
      (∃ pre post, methodErrorMsg = pre ++ c ++ post) ∧
      ∃ mt, parseMethod c = Except.ok mt) := by
  refine ⟨?_, ?_, ?_⟩
  · intro m₁ m₂ h
    unfold parseMethod
    rw [h]
  · intro method hm detect findPeaks s sr amin pd pp dl la
    have hv : ∀ x ∈ validMethodNames, strLower method ≠ x :=
      fun x hx hh => hm (hh ▸ hx)
    have hpm : parseMethod method =
        Except.error (PyError.valueError methodErrorMsg) := by
      unfold parseMethod
      rw [if_neg (not_or.mpr ⟨hv _ (by simp [validMethodNames]),
            hv _ (by simp [validMethodNames])⟩),
          if_neg (hv _ (by simp [validMethodNames])),
          if_neg (not_or.mpr ⟨hv _ (by simp [validMethodNames]),
            hv _ (by simp [validMethodNames])⟩),
          if_neg (hv _ (by simp [validMethodNames]))]
    unfold rsp_findpeaks
    simp only [retrieveInput, hpm]
  · intro c hc
    simp only [List.mem_cons, List.mem_singleton, List.not_mem_nil] at hc
    rcases hc with hc | hc | hc | hc
    · subst hc
      exact ⟨⟨"NeuroKit error: rsp_findpeaks(): 'method' should be one of '",
        "', 'scipy' or 'biosppy'.", by decide⟩, Method.khodadad, by rfl⟩
    · subst hc
      exact ⟨⟨"NeuroKit error: rsp_findpeaks(): 'method' should be one of 'khodadad2018', '",
        "' or 'biosppy'.", by decide⟩, Method.scipy, by rfl⟩
    · subst hc
      exact ⟨⟨"NeuroKit error: rsp_findpeaks(): 'method' should be one of 'khodadad2018', 'scipy' or '",
        "'.", by decide⟩, Method.biosppy, by rfl⟩
    · exact absurd hc (by simp)

/-- C9 (witness): dispatch agrees on two casings of "biosppy", and a
concrete unrecognized name fails with the configuration error on a concrete
signal. -/
theorem C9_witness :
    parseMethod "BioSPPy" = parseMethod "biosppy" ∧
    rsp_findpeaks (fun _ _ _ => ([], [])) (fun _ _ _ => []) (RspInput.series [1])
      1000 "pantompkins" (3/10) (8/10) (1/2) 0 200 =
      Except.error (PyError.valueError methodErrorMsg) :=
  ⟨C9_theorem.1 "BioSPPy" "biosppy" (by decide),
   C9_theorem.2.1 "pantompkins" (by decide) (fun _ _ _ => ([], []))
     (fun _ _ _ => []) [1] 1000 (3/10) (8/10) (1/2) 0 200⟩

theorem npDiff_length (l : List ℚ) : (npDiff l).length = l.length - 1 := by
  simp [npDiff]

theorem npDiff_getD : ∀ (l : List ℚ) (i : ℕ), i + 1 < l.length →
    (npDiff l).getD i 0 = l.getD (i + 1) 0 - l.getD i 0
  | [], i, h => by simp at h
  | [a], i, h => by simp at h
  | a :: b :: r, 0, _ => by simp [npDiff_cons_cons]
  | a :: b :: r, i + 1, h => by
      rw [npDiff_cons_cons]
      simp only [List.getD_cons_succ]
      exact npDiff_getD (b :: r) i (by simpa using h)

theorem mem_enumFilterMapFst {α : Type} (v : List α) (q : α → Bool) (i : ℕ) :
    i ∈ ((v.enum.filter (fun p => q p.2)).map Prod.fst) ↔
      ∃ h : i < v.length, q v[i] = true := by
  constructor
  · rintro hm
    obtain ⟨⟨j, x⟩, hpf, rfl⟩ := List.mem_map.mp hm
    obtain ⟨henum, hq⟩ := List.mem_filter.mp hpf
    have hx := List.mk_mem_enum_iff_getElem?.mp henum
    have hlt : j < v.length := by
      by_contra hge
      rw [List.getElem?_eq_none (by omega)] at hx
      simp at hx
    refine ⟨hlt, ?_⟩
    rw [List.getElem?_eq_getElem hlt, Option.some_inj] at hx
    rw [hx]
    exact hq
  · rintro ⟨h, hq⟩
    refine List.mem_map.mpr ⟨(i, v[i]), List.mem_filter.mpr ⟨?_, hq⟩, rfl⟩
    exact List.mk_mem_enum_iff_getElem?.mpr (List.getElem?_eq_getElem h)

theorem enumFrom_pairwise_fst {α : Type} : ∀ (n : ℕ) (v : List α),
    (List.enumFrom n v).Pairwise (fun a b => a.1 < b.1)
  | _, [] => List.Pairwise.nil
  | n, a :: v => by
      rw [List.enumFrom_cons]
      refine List.pairwise_cons.mpr ⟨?_, enumFrom_pairwise_fst (n + 1) v⟩
      intro p hp
      have := (List.mk_mem_enumFrom_iff_le_and_getElem?_sub.mp
        (show (p.1, p.2) ∈ List.enumFrom (n + 1) v from hp)).1
      omega

theorem enumFilterMapFst_pairwise {α : Type} (v : List α) (q : α → Bool) :
    ((v.enum.filter (fun p => q p.2)).map Prod.fst).Pairwise (· < ·) := by
  refine List.Pairwise.map Prod.fst (fun a b hab => hab) ?_
  exact List.Pairwise.filter _ (enumFrom_pairwise_fst 0 v)

theorem filter_not_length {α : Type} (p : α → Bool) : ∀ l : List α,
    (l.filter (fun a => !(p a))).length = l.length - (l.filter p).length
  | [] => rfl
  | a :: l => by
      have hle : (l.filter p).length ≤ l.length := (List.filter_sublist l).length_le
      cases hp : p a <;>
        simp [List.filter_cons, hp, filter_not_length p l] <;> omega

theorem sorted_bounded_eq_filter_range {I : List ℕ} (hI : I.Pairwise (· < ·))
    {n : ℕ} (hb : ∀ x ∈ I, x < n) :
    (List.range n).filter (fun j => I.contains j) = I := by
  have hnodupI : I.Nodup := hI.imp (fun hab => ne_of_lt hab)
  have hnodupF : ((List.range n).filter (fun j => I.contains j)).Nodup :=
    ((List.pairwise_lt_range n).filter _).imp (fun hab => ne_of_lt hab)
  refine List.eq_of_perm_of_sorted
    (List.perm_of_nodup_nodup_toFinset_eq hnodupF hnodupI ?_)
    ((List.pairwise_lt_range n).filter _) hI
  ext x
  simp only [List.mem_toFinset, List.mem_filter, List.mem_range]
  constructor
  · rintro ⟨_, hc⟩
    exact List.elem_iff.mp hc
  · intro hx
    exact ⟨hb x hx, List.elem_iff.mpr hx⟩

theorem npDeleteAux_length_filter {α : Type} (idcs : List ℕ) : ∀ (i : ℕ)
    (l : List α), (npDeleteAux idcs i l).length =
      ((List.range' i l.length).filter (fun j => !(idcs.contains j))).length
  | _, [] => by simp [npDeleteAux]
  | i, a :: l => by
      rw [npDeleteAux, List.length_cons, List.range'_succ, List.filter_cons]
      cases hc : idcs.contains i <;>
        simp [hc, npDeleteAux_length_filter idcs (i + 1) l]

theorem npDelete_length {l : List ℕ} {idcs : List ℕ}
    (hI : idcs.Pairwise (· < ·)) (hb : ∀ x ∈ idcs, x < l.length) :
    (npDelete l idcs).length + idcs.length = l.length := by
  rw [npDelete, npDeleteAux_length_filter idcs 0 l, ← List.range_eq_range',
    filter_not_length, sorted_bounded_eq_filter_range hI hb]
  have : idcs.length ≤ (List.range l.length).length := by
    rw [← sorted_bounded_eq_filter_range hI hb]
    exact (List.filter_sublist _).length_le
  simp only [List.length_range] at this ⊢
  omega

theorem npDeleteAux_mem {α : Type} (idcs : List ℕ) : ∀ (i : ℕ) (l : List α)
    (x : α), x ∈ npDeleteAux idcs i l →
      ∃ j, ∃ h : j < l.length, idcs.contains (i + j) = false ∧ l[j] = x
  | i, [], x, hx => by simp [npDeleteAux] at hx
  | i, a :: l, x, hx => by
      rw [npDeleteAux] at hx
      split at hx
      · obtain ⟨j, hj, hc, hg⟩ := npDeleteAux_mem idcs (i + 1) l x hx
        exact ⟨j + 1, by simpa using hj, by rw [show i + (j + 1) = i + 1 + j by omega]; exact hc, by simpa using hg⟩
      · rcases List.mem_cons.mp hx with rfl | hx'
        · refine ⟨0, by simp, ?_, by simp⟩
          simp only [Nat.add_zero]
          rename_i hcontains
          exact Bool.not_eq_true _ ▸ (by simpa using hcontains)
        · obtain ⟨j, hj, hc, hg⟩ := npDeleteAux_mem idcs (i + 1) l x hx'
          exact ⟨j + 1, by simpa using hj,
            by rw [show i + (j + 1) = i + 1 + j by omega]; exact hc, by simpa using hg⟩

theorem not_mem_npDelete {l idcs : List ℕ} (hl : l.Pairwise (· < ·)) {i : ℕ}
    (hi : i < l.length) (hmem : idcs.contains i = true) :
    l[i] ∉ npDelete l idcs := by
  intro hin
  obtain ⟨j, hj, hc, hg⟩ := npDeleteAux_mem idcs 0 l _ hin
  rw [Nat.zero_add] at hc
  have hnodup : l.Nodup := hl.imp (fun hab => ne_of_lt hab)
  have hg' : l.get ⟨j, hj⟩ = l.get ⟨i, hi⟩ := by simpa using hg
  have hfin := (List.Nodup.get_inj_iff hnodup).mp hg'
  have hji : j = i := congrArg Fin.val hfin
  subst hji
  rw [hc] at hmem
  simp at hmem

/-- C7: in the biosppy variant, for every adjacent peak pair of the
sanitized stage whose inter-peak interval divided by the sampling rate is
below 1.7, the first peak of the pair and the trough at the same position
are both absent from the final output, and each flagged pair reduces the
final count by exactly one peak and one trough. -/
theorem C7_theorem : ∀ (s : List ℚ) (sampling_rate : ℚ) (psan tsan pf tf : List ℕ),
    _rsp_findpeaks_khodadad s 0 = some (psan, tsan) →
    _rsp_findpeaks_biosppy s sampling_rate = some (pf, tf) →
    (∀ i, i + 1 < psan.length →
      ((psan.getD (i + 1) 0 : ℚ) - (psan.getD i 0 : ℚ)) / sampling_rate < 17 / 10 →
      psan.getD i 0 ∉ pf ∧ tsan.getD i 0 ∉ tf) ∧
    pf.length + (rateOutlierIdcs psan sampling_rate).length = psan.length ∧
    tf.length + (rateOutlierIdcs psan sampling_rate).length = tsan.length := by
  intro s sr psan tsan pf tf hk hb
  rw [biosppy_as_khodadad, hk] at hb
  simp only [Option.some.injEq, Prod.mk.injEq] at hb
  obtain ⟨hpf, htf⟩ := hb
  obtain ⟨e2, hchain, hpeq, hteq⟩ := khodadad_parts hk
  have hpair : e2.Pairwise (· < ·) := List.chain'_iff_pairwise.mp hchain
  have hpsan : psan.Pairwise (· < ·) := by
    rw [hpeq]
    exact List.Pairwise.sublist (everySecondOdd_sublist e2) hpair
  have htsan : tsan.Pairwise (· < ·) := by
    rw [hteq]
    exact List.Pairwise.sublist (everySecondEvenButLast_sublist e2) hpair
  have hlen : psan.length = tsan.length := khodadad_length hk
  have hIpair : (rateOutlierIdcs psan sr).Pairwise (· < ·) :=
    enumFilterMapFst_pairwise (npDiff (psan.map (fun n : ℕ => (n : ℚ))))
      (fun x => decide (x / sr < 17 / 10))
  have hIbound : ∀ x ∈ rateOutlierIdcs psan sr, x < psan.length := by
    intro x hx
    obtain ⟨h, _⟩ := (mem_enumFilterMapFst (npDiff (psan.map (fun n : ℕ => (n : ℚ))))
      (fun y => decide (y / sr < 17 / 10)) x).mp hx
    rw [npDiff_length, List.length_map] at h
    omega
  refine ⟨?_, ?_, ?_⟩
  · intro i hi hcond
    have hmemI : i ∈ rateOutlierIdcs psan sr := by
      refine (mem_enumFilterMapFst (npDiff (psan.map (fun n : ℕ => (n : ℚ))))
        (fun y => decide (y / sr < 17 / 10)) i).mpr ⟨?_, ?_⟩
      · rw [npDiff_length, List.length_map]
        omega
      · have hlt : i < (npDiff (psan.map (fun n : ℕ => (n : ℚ)))).length := by
          rw [npDiff_length, List.length_map]
          omega
        rw [← List.getD_eq_getElem _ 0 hlt,
          npDiff_getD _ i (by rw [List.length_map]; omega)]
        have hmap : ∀ j : ℕ, (psan.map (fun n : ℕ => (n : ℚ))).getD j 0 =
            ((psan.getD j 0 : ℕ) : ℚ) := by
          intro j
          rw [← Nat.cast_zero]
          exact List.getD_map psan 0 _
        rw [hmap, hmap]
        exact decide_eq_true hcond
    have hiI : List.contains (rateOutlierIdcs psan sr) i = true :=
      List.elem_iff.mpr hmemI
    constructor
    · rw [← hpf, List.getD_eq_getElem psan 0 (by omega : i < psan.length)]
      exact not_mem_npDelete hpsan _ hiI
    · have hit : i < tsan.length := by omega
      rw [← htf, List.getD_eq_getElem tsan 0 hit]
      exact not_mem_npDelete htsan _ hiI
  · rw [← hpf]
    exact npDelete_length hIpair hIbound
  · rw [← htf]
    exact npDelete_length hIpair (fun x hx => hlen ▸ hIbound x hx)

/-- C7 (witness): a concrete signal whose two sanitized peaks are 2 samples
apart at sampling rate 10 (interval 0.2 < 1.7); the first peak and its
trough are dropped and the counts shrink by one pair. -/
theorem C7_witness :
    ((1 : ℕ) ∉ ([3] : List ℕ) ∧ (0 : ℕ) ∉ ([2] : List ℕ)) ∧
    ([3] : List ℕ).length + (rateOutlierIdcs [1, 3] 10).length =
      ([1, 3] : List ℕ).length ∧
    ([2] : List ℕ).length + (rateOutlierIdcs [1, 3] 10).length =
      ([0, 2] : List ℕ).length := by
  have hk : _rsp_findpeaks_khodadad [-1, 5, -5, 6, -6, 7, -7] 0 =
      some ([1, 3], [0, 2]) := by
    norm_num [_rsp_findpeaks_khodadad, _rsp_findpeaks_extrema, risex, fallx, allx,
      windowOf, argmaxFirst, argminFirst, listMax, listMin, _rsp_findpeaks_outliers,
      amplitudeFilter, npDiff, npMedian, qsign, repairRemovals, npDelete, npDeleteAux,
      _rsp_findpeaks_sanitize, everySecondOdd, everySecondEvenButLast,
      List.range_succ, List.enum, List.enumFrom, List.insertionSort, List.orderedInsert]
  have hb : _rsp_findpeaks_biosppy [-1, 5, -5, 6, -6, 7, -7] 10 =
      some ([3], [2]) := by
    norm_num [_rsp_findpeaks_biosppy, _rsp_findpeaks_extrema, risex, fallx, allx,
      windowOf, argmaxFirst, argminFirst, listMax, listMin, _rsp_findpeaks_outliers,
      amplitudeFilter, npDiff, npMedian, qsign, repairRemovals, npDelete, npDeleteAux,
      _rsp_findpeaks_sanitize, everySecondOdd, everySecondEvenButLast,
      rateOutlierIdcs, List.range_succ, List.enum, List.enumFrom,
      List.insertionSort, List.orderedInsert]
  have h := C7_theorem [-1, 5, -5, 6, -6, 7, -7] 10 [1, 3] [0, 2] [3] [2] hk hb
  refine ⟨?_, h.2.1, h.2.2⟩
  have h0 := h.1 0 (by norm_num) (by norm_num)
  simp only [List.getD_cons_zero] at h0
  exact h0

theorem altFrom_cons_cons (u : Bool) (a b : ℚ) (r : List ℚ) :
    altFrom u (a :: b :: r) =
      ((if u then decide (a < b) else decide (b < a)) && altFrom (!u) (b :: r)) :=
  rfl

theorem qsign_of_lt {x y : ℚ} (h : x < y) : qsign (y - x) = 1 := by
  unfold qsign
  rw [if_neg (not_lt.mpr (le_of_lt (sub_pos.mpr h))),
    if_neg (sub_ne_zero.mpr (ne_of_gt h))]

theorem qsign_of_gt {x y : ℚ} (h : y < x) : qsign (y - x) = -1 := by
  unfold qsign
  rw [if_pos (sub_neg.mpr h)]

theorem altFrom_take : ∀ (l : List ℚ) (u : Bool) (m : ℕ),
    altFrom u l = true → altFrom u (l.take m) = true
  | [], u, m, _ => by simp [altFrom]
  | [a], u, m, _ => by
      cases m with
      | zero => rfl
      | succ m => simp [altFrom]
  | a :: b :: r, u, m, h => by
      rw [altFrom_cons_cons, Bool.and_eq_true] at h
      match m with
      | 0 => rfl
      | 1 => rfl
      | m + 2 =>
          rw [List.take_succ_cons, List.take_succ_cons, altFrom_cons_cons,
            Bool.and_eq_true]
          exact ⟨h.1, by
            have := altFrom_take (b :: r) (!u) (m + 1) h.2
            simpa using this⟩

theorem altFrom_diff_ne : ∀ (l : List ℚ) (u : Bool), altFrom u l = true →
    ∀ x ∈ npDiff l, x ≠ 0
  | [], _, _, x, hx => by simp [npDiff] at hx
  | [a], _, _, x, hx => by simp [npDiff] at hx
  | a :: b :: r, u, h, x, hx => by
      rw [altFrom_cons_cons, Bool.and_eq_true] at h
      rw [npDiff_cons_cons] at hx
      rcases List.mem_cons.mp hx with rfl | hx'
      · cases u with
        | true =>
            have hab : a < b := of_decide_eq_true (by simpa using h.1)
            exact sub_ne_zero.mpr (ne_of_gt hab)
        | false =>
            have hba : b < a := of_decide_eq_true (by simpa using h.1)
            exact sub_ne_zero.mpr (ne_of_lt hba)
      · exact altFrom_diff_ne (b :: r) (!u) h.2 x hx'

theorem altFrom_sums_zero : ∀ (l : List ℚ) (u : Bool), altFrom u l = true →
    ∀ x ∈ (((npDiff l).map qsign).zip ((npDiff l).map qsign).tail).map
      (fun p => p.1 + p.2), x = 0
  | [], _, _, x, hx => by simp [npDiff] at hx
  | [a], _, _, x, hx => by simp [npDiff] at hx
  | [a, b], _, _, x, hx => by simp [npDiff, List.zip] at hx
  | a :: b :: c :: r, u, h, x, hx => by
      rw [altFrom_cons_cons, Bool.and_eq_true] at h
      have h2 := h.2
      rw [altFrom_cons_cons, Bool.and_eq_true] at h2
      rw [npDiff_cons_cons, npDiff_cons_cons] at hx
      simp only [List.map_cons, List.tail_cons, List.zip_cons_cons,
        List.map_cons, List.mem_cons] at hx
      rcases hx with rfl | hx'
      · cases u with
        | true =>
            have hab : a < b := of_decide_eq_true (by simpa using h.1)
            have hcb : c < b := of_decide_eq_true (by simpa using h2.1)
            rw [qsign_of_lt hab, qsign_of_gt hcb]
            norm_num
        | false =>
            have hba : b < a := of_decide_eq_true (by simpa using h.1)
            have hbc : b < c := of_decide_eq_true (by simpa using h2.1)
            rw [qsign_of_gt hba, qsign_of_lt hbc]
            norm_num
      · have := altFrom_sums_zero (b :: c :: r) (!u) h.2 x
        rw [npDiff_cons_cons] at this
        simp only [List.map_cons, List.tail_cons] at this
        exact this (by simpa using hx')

theorem repairRemovals_of_alt (l : List ℚ) (u : Bool)
    (h : altFrom u l = true) : repairRemovals l = [] := by
  have hz := altFrom_sums_zero l u h
  simp only [repairRemovals]
  rw [List.filter_eq_nil_iff.mpr ?_, List.map_nil, List.map_nil]
  intro p hp
  have hp2 : p.2 ∈ (((npDiff l).map qsign).zip ((npDiff l).map qsign).tail).map
      (fun q => q.1 + q.2) :=
    List.getElem?_mem (List.mem_enum_iff_getElem?.mp hp)
  simp [hz p.2 hp2]

theorem npDelete_nil {α : Type} (l : List α) : npDelete l [] = l :=
  npDeleteAux_nil 0 l

theorem ampFilter0_all_ne (rsp_cleaned : List ℚ) (extrema : List ℕ)
    (h : ∀ x ∈ npDiff (extrema.map (fun e => rsp_cleaned.getD e 0)), x ≠ 0) :
    amplitudeFilter rsp_cleaned extrema 0 = extrema.dropLast := by
  simp only [amplitudeFilter, mul_zero]
  rw [List.filter_eq_self.mpr ?_, zip_map_fst_take, List.length_map,
    npDiff_length, List.length_map, ← List.dropLast_eq_take]
  intro p hp
  have hmem := (List.of_mem_zip (show (p.1, p.2) ∈ _ from hp)).2
  obtain ⟨d, hd, hdp⟩ := List.mem_map.mp hmem
  rw [← hdp]
  simpa [abs_pos] using h d hd

theorem getD_dropLast (l : List ℚ) (i : ℕ) (h : i < l.length - 1) :
    l.dropLast.getD i 0 = l.getD i 0 := by
  rw [List.dropLast_eq_take, List.getD_eq_getElem?_getD,
    List.getD_eq_getElem?_getD, List.getElem?_take, if_pos h]

theorem altFrom_rise : ∀ (l : List ℚ) (u : Bool), altFrom u l = true →
    ∀ i, i + 1 < l.length → ((u = true) ↔ i % 2 = 0) →
    l.getD i 0 < l.getD (i + 1) 0
  | [], _, _, i, hi, _ => by simp at hi
  | [a], _, _, i, hi, _ => by simp at hi
  | a :: b :: r, u, h, 0, _, hp => by
      have hu : u = true := hp.mpr rfl
      subst hu
      rw [altFrom_cons_cons, Bool.and_eq_true] at h
      simpa using of_decide_eq_true (by simpa using h.1)
  | a :: b :: r, u, h, i + 1, hi, hp => by
      rw [altFrom_cons_cons, Bool.and_eq_true] at h
      have hp' : ((!u) = true) ↔ i % 2 = 0 := by
        cases u <;> simp_all <;> omega
      simp only [List.getD_cons_succ]
      exact altFrom_rise (b :: r) (!u) h.2 i (by simpa using hi) hp'

theorem altFrom_fall : ∀ (l : List ℚ) (u : Bool), altFrom u l = true →
    ∀ i, i + 1 < l.length → ((u = true) ↔ i % 2 = 1) →
    l.getD (i + 1) 0 < l.getD i 0
  | [], _, _, i, hi, _ => by simp at hi
  | [a], _, _, i, hi, _ => by simp at hi
  | a :: b :: r, u, h, 0, _, hp => by
      have hu : u = false := by
        cases u with
        | true => exact absurd (hp.mp rfl) (by norm_num)
        | false => rfl
      subst hu
      rw [altFrom_cons_cons, Bool.and_eq_true] at h
      simpa using of_decide_eq_true (by simpa using h.1)
  | a :: b :: r, u, h, i + 1, hi, hp => by
      rw [altFrom_cons_cons, Bool.and_eq_true] at h
      have hp' : ((!u) = true) ↔ i % 2 = 1 := by
        cases u <;> simp_all <;> omega
      simp only [List.getD_cons_succ]
      exact altFrom_fall (b :: r) (!u) h.2 i (by simpa using hi) hp'

theorem everySecondOdd_dropLast2 {α : Type} : ∀ l : List α, l.length % 2 = 0 →
    everySecondOdd (l.dropLast.dropLast) = (everySecondOdd l).dropLast
  | [], _ => rfl
  | [_], h => by simp only [List.length_cons, List.length_nil] at h; omega
  | [_, _], _ => rfl
  | [_, _, _], h => by simp only [List.length_cons, List.length_nil] at h; omega
  | a :: b :: c :: d :: r, h => by
      have hr : r.length % 2 = 0 := by
        simp only [List.length_cons, List.length_nil] at h; omega
      have h1 : (a :: b :: c :: d :: r).dropLast.dropLast =
          a :: b :: ((c :: d :: r).dropLast.dropLast) := by
        rw [List.dropLast_cons_of_ne_nil (by simp),
          List.dropLast_cons_of_ne_nil (by simp),
          List.dropLast_cons_of_ne_nil (by simp [List.dropLast_cons_of_ne_nil]),
          List.dropLast_cons_of_ne_nil (by
            cases r <;> simp [List.dropLast_cons_of_ne_nil])]
      rw [h1]
      have h2 : everySecondOdd (a :: b :: ((c :: d :: r).dropLast.dropLast)) =
          b :: everySecondOdd ((c :: d :: r).dropLast.dropLast) := rfl
      rw [h2, everySecondOdd_dropLast2 (c :: d :: r) (by
        simp only [List.length_cons, List.length_nil] at h ⊢; omega)]
      have h3 : everySecondOdd (a :: b :: c :: d :: r) =
          b :: everySecondOdd (c :: d :: r) := rfl
      rw [h3, List.dropLast_cons_of_ne_nil (by
        cases r <;> simp [everySecondOdd])]

theorem everySecondEvenButLast_dropLast2 {α : Type} : ∀ l : List α,
    l.length % 2 = 0 →
    everySecondEvenButLast (l.dropLast.dropLast) =
      (everySecondEvenButLast l).dropLast
  | [], _ => rfl
  | [_], h => by simp only [List.length_cons, List.length_nil] at h; omega
  | [_, _], _ => rfl
  | [_, _, _], h => by simp only [List.length_cons, List.length_nil] at h; omega
  | a :: b :: c :: d :: r, h => by
      have h1 : (a :: b :: c :: d :: r).dropLast.dropLast =
          a :: b :: ((c :: d :: r).dropLast.dropLast) := by
        rw [List.dropLast_cons_of_ne_nil (by simp),
          List.dropLast_cons_of_ne_nil (by simp),
          List.dropLast_cons_of_ne_nil (by simp [List.dropLast_cons_of_ne_nil]),
          List.dropLast_cons_of_ne_nil (by
            cases r <;> simp [List.dropLast_cons_of_ne_nil])]
      rw [h1]
      have h2 : everySecondEvenButLast (a :: b :: ((c :: d :: r).dropLast.dropLast)) =
          a :: everySecondEvenButLast ((c :: d :: r).dropLast.dropLast) := rfl
      rw [h2, everySecondEvenButLast_dropLast2 (c :: d :: r) (by
        simp only [List.length_cons, List.length_nil] at h ⊢; omega)]
      have h3 : everySecondEvenButLast (a :: b :: c :: d :: r) =
          a :: everySecondEvenButLast (c :: d :: r) := rfl
      rw [h3, List.dropLast_cons_of_ne_nil (by
        cases r with
        | nil => simp [everySecondEvenButLast]
        | cons x r' => cases r' <;> simp [everySecondEvenButLast])]

theorem sanitize_eval (extrema : List ℕ) (amps : List ℚ) (h2 : 2 ≤ amps.length)
    (hc1 : ¬ amps.getD 1 0 < amps.getD 0 0)
    (hc2 : ¬ amps.getD (amps.length - 1) 0 < amps.getD (amps.length - 2) 0) :
    _rsp_findpeaks_sanitize extrema amps =
      some (everySecondOdd extrema, everySecondEvenButLast extrema) := by
  simp only [_rsp_findpeaks_sanitize]
  rw [if_pos h2, if_neg hc1, if_neg hc2]

theorem sanitize_eval_dropLast (extrema : List ℕ) (amps : List ℚ)
    (h2 : 2 ≤ amps.length) (hc1 : ¬ amps.getD 1 0 < amps.getD 0 0)
    (hc2 : amps.getD (amps.length - 1) 0 < amps.getD (amps.length - 2) 0) :
    _rsp_findpeaks_sanitize extrema amps =
      some (everySecondOdd extrema.dropLast,
        everySecondEvenButLast extrema.dropLast) := by
  simp only [_rsp_findpeaks_sanitize]
  rw [if_pos h2, if_neg hc1, if_pos hc2]

/-- C4 (counterexample): the extrema sequence `[0, 1, 2, 3]` with amplitudes
`[0, 10, 1, 11]` is already sanitized (strictly alternating, trough first,
peak last), yet re-running the outlier filter with `amplitude_min = 0`
followed by the sanitizer returns different (shorter) peak and trough
sequences. -/
theorem C4_counterexample :
    altFrom true ([0, 1, 2, 3].map (fun e => [(0 : ℚ), 10, 1, 11].getD e 0)) =
      true ∧
    _rsp_findpeaks_sanitize [0, 1, 2, 3]
      ([0, 1, 2, 3].map (fun e => [(0 : ℚ), 10, 1, 11].getD e 0)) =
      some ([1, 3], [0, 2]) ∧
    _rsp_findpeaks_sanitize
      (_rsp_findpeaks_outliers [(0 : ℚ), 10, 1, 11] [0, 1, 2, 3] 0).1
      (_rsp_findpeaks_outliers [(0 : ℚ), 10, 1, 11] [0, 1, 2, 3] 0).2 =
      some ([1], [0]) ∧
    some (([1], [0]) : List ℕ × List ℕ) ≠ some (([1, 3], [0, 2])) := by
  refine ⟨by norm_num [altFrom], ?_, ?_, by simp⟩ <;>
    norm_num [_rsp_findpeaks_outliers, amplitudeFilter, npDiff, npMedian, qsign,
      repairRemovals, npDelete, npDeleteAux, _rsp_findpeaks_sanitize,
      everySecondOdd, everySecondEvenButLast, List.enum, List.enumFrom,
      List.insertionSort, List.orderedInsert]

/-- C4 (amended): the alternation-repair pass is indeed a no-op on an
already-alternating amplitude sequence, but the filter+sanitize composition
is not idempotent: with `amplitude_min = 0`, re-running it on an
already-sanitized extrema sequence (strictly alternating amplitudes, even
length ≥ 4) drops exactly the last peak and the last trough, because the
amplitude step's index mapping always discards the final extremum. -/
theorem C4_theorem :
    (∀ (amplitudes : List ℚ) (u : Bool), altFrom u amplitudes = true →
      repairRemovals amplitudes = []) ∧
    (∀ (rsp_cleaned : List ℚ) (extrema p0 t0 : List ℕ),
      4 ≤ extrema.length → extrema.length % 2 = 0 →
      altFrom true (extrema.map (fun e => rsp_cleaned.getD e 0)) = true →
      _rsp_findpeaks_sanitize extrema
        (extrema.map (fun e => rsp_cleaned.getD e 0)) = some (p0, t0) →
      _rsp_findpeaks_sanitize
        (_rsp_findpeaks_outliers rsp_cleaned extrema 0).1
        (_rsp_findpeaks_outliers rsp_cleaned extrema 0).2 =
        some (p0.dropLast, t0.dropLast)) := by
  constructor
  · exact fun l u h => repairRemovals_of_alt l u h
  · intro rsp extrema p0 t0 h4 heven halt hsan
    have hlen_map : (extrema.map (fun e => rsp.getD e 0)).length = extrema.length :=
      List.length_map _ _
    have ha01 : (extrema.map (fun e => rsp.getD e 0)).getD 0 0 <
        (extrema.map (fun e => rsp.getD e 0)).getD 1 0 :=
      altFrom_rise _ true halt 0 (by rw [hlen_map]; omega) (by norm_num)
    have hend : (extrema.map (fun e => rsp.getD e 0)).getD (extrema.length - 2) 0 <
        (extrema.map (fun e => rsp.getD e 0)).getD (extrema.length - 1) 0 := by
      have := altFrom_rise _ true halt (extrema.length - 2)
        (by rw [hlen_map]; omega) (iff_of_true rfl (by omega))
      have harith : extrema.length - 2 + 1 = extrema.length - 1 := by omega
      rwa [harith] at this
    have hfall : (extrema.map (fun e => rsp.getD e 0)).getD (extrema.length - 2) 0 <
        (extrema.map (fun e => rsp.getD e 0)).getD (extrema.length - 3) 0 := by
      have := altFrom_fall _ true halt (extrema.length - 3)
        (by rw [hlen_map]; omega) (iff_of_true rfl (by omega))
      have harith : extrema.length - 3 + 1 = extrema.length - 2 := by omega
      rwa [harith] at this
    rw [sanitize_eval extrema _ (by rw [hlen_map]; omega) (lt_asymm ha01)
      (by rw [hlen_map]; exact lt_asymm hend)] at hsan
    simp only [Option.some.injEq, Prod.mk.injEq] at hsan
    obtain ⟨hp0, ht0⟩ := hsan
    have haltdrop : altFrom true ((extrema.map (fun e => rsp.getD e 0)).dropLast) =
        true := by
      rw [List.dropLast_eq_take]
      exact altFrom_take _ true _ halt
    have houtl : _rsp_findpeaks_outliers rsp extrema 0 =
        (extrema.dropLast, (extrema.map (fun e => rsp.getD e 0)).dropLast) := by
      simp only [_rsp_findpeaks_outliers]
      rw [ampFilter0_all_ne rsp extrema (altFrom_diff_ne _ true halt),
        List.map_dropLast, repairRemovals_of_alt _ true haltdrop,
        npDelete_nil, npDelete_nil]
    rw [houtl]
    have hl' : (extrema.map (fun e => rsp.getD e 0)).dropLast.length =
        extrema.length - 1 := by
      rw [List.length_dropLast, hlen_map]
    rw [sanitize_eval_dropLast (extrema.dropLast) _ (by rw [hl']; omega) ?_ ?_,
      everySecondOdd_dropLast2 extrema heven,
      everySecondEvenButLast_dropLast2 extrema heven, ← hp0, ← ht0]
    · rw [getD_dropLast _ 1 (by rw [hlen_map]; omega),
        getD_dropLast _ 0 (by rw [hlen_map]; omega)]
      exact lt_asymm ha01
    · rw [hl']
      have e1 : extrema.length - 1 - 1 = extrema.length - 2 := by omega
      have e2 : extrema.length - 1 - 2 = extrema.length - 3 := by omega
      rw [e1, e2, getD_dropLast _ _ (by rw [hlen_map]; omega),
        getD_dropLast _ _ (by rw [hlen_map]; omega)]
      exact hfall

/-- C4 (witness): the amended theorem applied to the concrete sanitized
sequence `[0, 1, 2, 3]` over the signal `[0, 10, 1, 11]`. -/
theorem C4_witness :
    repairRemovals [0, 10, 1, 11] = [] ∧
    _rsp_findpeaks_sanitize
      (_rsp_findpeaks_outliers [(0 : ℚ), 10, 1, 11] [0, 1, 2, 3] 0).1
      (_rsp_findpeaks_outliers [(0 : ℚ), 10, 1, 11] [0, 1, 2, 3] 0).2 =
      some (([1, 3] : List ℕ).dropLast, ([0, 2] : List ℕ).dropLast) := by
  refine ⟨C4_theorem.1 [0, 10, 1, 11] true (by norm_num [altFrom]), ?_⟩
  exact C4_theorem.2 [(0 : ℚ), 10, 1, 11] [0, 1, 2, 3] [1, 3] [0, 2]
    (by norm_num) (by norm_num) (by norm_num [altFrom])
    (by norm_num [_rsp_findpeaks_sanitize, everySecondOdd,
      everySecondEvenButLast])
